import Mathlib

/-!
Verification development for the bili-fastapi-browser-rpa repository.

Shallow embedding of the two core subsystems:
* the Playwright session pool (`app/services/RPA_browser/playwright_pool.py`,
  `app/services/RPA_browser/base_engines.py`), and
* the operation-hook pipeline
  (`app/services/site_rpa_operation/base/plugined_page_manager.py`,
  `app/services/site_rpa_operation/base/base_plugin.py`,
  `app/services/site_rpa_operation/plugins/*.py`).

Conventions: browser tokens, session identities, plugin names and node names
are `Nat`; timestamps are `Int` (seconds); the fallible parts return `Except`.
-/

namespace BiliRPA

/-! ## Session pool data model (`playwright_pool.py`)

`SessionInfo` keeps the fields of the Python dataclass that the pool logic
reads: `last_used` (`SessionInfo.last_used`), the engine's
`is_remote_control_active` flag, and `sid`, the identity of the
`(playwright_instance, browser_context)` pair stored in the entry. -/

structure SessionInfo where
  last_used : Int
  remote : Bool
  sid : Nat
deriving DecidableEq, Repr

/-- `_active_sessions`: the dict from browser token to `SessionInfo`,
embedded as an association list (dict keys are unique; theorems that need
this carry a `Nodup` hypothesis on the key list). -/
abbrev SessionMap := List (Nat × SessionInfo)

/-- Dict lookup `_active_sessions[token]` / `token in _active_sessions`. -/
def lookupTok (m : SessionMap) (t : Nat) : Option SessionInfo :=
  match m with
  | [] => none
  | e :: rest => if e.1 = t then some e.2 else lookupTok rest t

/-- Dict deletion `del _active_sessions[token]` (drops every entry whose
key is `t`; on a dict-shaped map there is at most one). -/
def removeTok (m : SessionMap) (t : Nat) : SessionMap :=
  match m with
  | [] => []
  | e :: rest => if e.1 = t then removeTok rest t else e :: removeTok rest t

/-- Pool state observed by the teardown paths: the session dict plus the
order in which `context_manager.__aexit__` was invoked (the teardown
trace; `__aexit__` exceptions are swallowed by `_close_session`, so one
event per invoked teardown suffices). -/
structure PoolSt where
  sessions : SessionMap
  closedToks : List Nat
deriving DecidableEq, Repr

/-- `PlaywrightSessionPool._close_session`: runs with the pool lock already
held by the caller and acquires no lock itself; if the token is present it
invokes the stored `context_manager.__aexit__` (exceptions ignored) and
deletes the entry. -/
def close_session (st : PoolSt) (t : Nat) : PoolSt :=
  match lookupTok st.sessions t with
  | none => st
  | some _ => { sessions := removeTok st.sessions t
                closedToks := st.closedToks ++ [t] }

/-- The one way an embedded pool call can fail to return: the calling task
blocks forever on the pool lock. -/
inductive PoolFail
  | deadlock
deriving DecidableEq, Repr

/-- `PlaywrightSessionPool.release_session`: `async with self._pool_lock`
around `_close_session`. `asyncio.Lock` is not reentrant: a task that
already holds the lock and awaits `acquire` again waits forever, so the
call is embedded with a `held` flag saying whether the calling task already
holds the pool lock; re-acquisition is the `deadlock` outcome. -/
def release_session (held : Bool) (st : PoolSt) (t : Nat) : Except PoolFail PoolSt :=
  if held then .error .deadlock
  else .ok (close_session st t)

/-- `PlaywrightSessionPool.cleanup_all_sessions`: takes the pool lock, lists
the active tokens, and then calls `self.release_session(token)` for each —
while still holding the pool lock, so each inner call runs with
`held = true`. -/
def cleanup_all_sessions (st : PoolSt) : Except PoolFail PoolSt :=
  (st.sessions.map Prod.fst).foldlM (fun acc t => release_session true acc t) st

/-- `PlaywrightSessionPool._cleanup_inactive_sessions` (one sweep pass):
under the pool lock, collect the tokens whose idle time strictly exceeds
`30 * 60` seconds and whose engine's `is_remote_control_active` is false,
then tear each down with `_close_session` (still under the same lock). -/
def cleanup_inactive_sessions (now : Int) (st : PoolSt) : PoolSt :=
  let inactive := (st.sessions.filter
      (fun e => decide (30 * 60 < now - e.2.last_used) && !e.2.remote)).map Prod.fst
  inactive.foldl close_session st

/-! ## Concurrent `get_session` (`playwright_pool.py`, lines 90–153)

Operational model of N asyncio tasks concurrently running
`get_session(T)` for one fixed token T that is initially absent.
asyncio is single-threaded cooperative scheduling: code between two
suspension points runs atomically.  The suspension points of
`get_session` / `_create_session` are the two `self._pool_lock`
acquisitions and the `browser_context_manager.__aenter__()` launch await
— and the pool lock is held *across* the launch await, being released
only when `_create_session` returns.  Timestamp refreshes
(`last_used`, `update_activity_timestamp`) do not affect which session is
returned and are elided.  Launches are modelled as always succeeding
(the claim is about the success path; a failed launch propagates and
stores nothing). -/

/-- Program counter of one task running `get_session(T)`.
`check1` = inside the first `async with self._pool_lock` block;
`acq2` = about to re-acquire the lock inside `_create_session`;
`check2` = inside `_create_session`'s lock block at the double check;
`launching` = awaiting `__aenter__()` with the pool lock still held. -/
inductive GPC
  | start
  | check1
  | acq2
  | check2
  | launching
  | done
deriving DecidableEq, Repr

/-- Local state of one task: program counter and the `(engine, context)`
pair it returned, identified by the creating task's id. -/
structure TaskSt where
  pc : GPC
  res : Option Nat
deriving DecidableEq, Repr

/-- Pointwise update of a task family (reduces by `decide` on concrete ids). -/
def updT (f : Nat → TaskSt) (i : Nat) (v : TaskSt) : Nat → TaskSt :=
  fun j => if j = i then v else f j

/-- Global state for the fixed token T: `session` is
`_active_sessions.get(T)` reduced to the identity of the stored pair,
`lock` the owner of `_pool_lock` (`none` = free), `launches` the number
of `launch_browser().__aenter__()` invocations so far. -/
structure SysSt where
  session : Option Nat
  lock : Option Nat
  launches : Nat
  tasks : Nat → TaskSt

/-- All tasks at `start`, token absent, lock free, no launch yet. -/
def initSys : SysSt :=
  { session := none, lock := none, launches := 0, tasks := fun _ => ⟨.start, none⟩ }

/-- One atomic step of the concurrent `get_session(T)` protocol (the code
between two suspension points, executed by task `i`). -/
inductive GStep : SysSt → SysSt → Prop
  /-- Task `i` wins the first `await self._pool_lock.acquire()`. -/
  | acquire1 (i : Nat) (s : SysSt) :
      (s.tasks i).pc = .start → s.lock = none →
      GStep s { s with lock := some i, tasks := updT s.tasks i ⟨.check1, none⟩ }
  /-- First check finds the token: refresh timestamps, return the stored
  pair, lock released on block exit. -/
  | hit1 (i v : Nat) (s : SysSt) :
      (s.tasks i).pc = .check1 → s.lock = some i → s.session = some v →
      GStep s { s with lock := none, tasks := updT s.tasks i ⟨.done, some v⟩ }
  /-- First check misses: leave the lock block and call `_create_session`. -/
  | miss1 (i : Nat) (s : SysSt) :
      (s.tasks i).pc = .check1 → s.lock = some i → s.session = none →
      GStep s { s with lock := none, tasks := updT s.tasks i ⟨.acq2, none⟩ }
  /-- Task `i` wins `_create_session`'s `await self._pool_lock.acquire()`. -/
  | acquire2 (i : Nat) (s : SysSt) :
      (s.tasks i).pc = .acq2 → s.lock = none →
      GStep s { s with lock := some i, tasks := updT s.tasks i ⟨.check2, none⟩ }
  /-- Double check finds the token (someone created it in between):
  return the stored pair without launching. -/
  | hit2 (i v : Nat) (s : SysSt) :
      (s.tasks i).pc = .check2 → s.lock = some i → s.session = some v →
      GStep s { s with lock := none, tasks := updT s.tasks i ⟨.done, some v⟩ }
  /-- Double check misses: build the engine and start
  `browser_context_manager.__aenter__()` — one more launch, lock kept. -/
  | miss2 (i : Nat) (s : SysSt) :
      (s.tasks i).pc = .check2 → s.lock = some i → s.session = none →
      GStep s { s with launches := s.launches + 1, tasks := updT s.tasks i ⟨.launching, none⟩ }
  /-- The launch await completes: store the new `SessionInfo`, return the
  pair, release the lock when `_create_session`'s lock block exits. -/
  | finish (i : Nat) (s : SysSt) :
      (s.tasks i).pc = .launching → s.lock = some i →
      GStep s { s with session := some i, lock := none,
                       tasks := updT s.tasks i ⟨.done, some i⟩ }

/-- Reachable states of the concurrent `get_session(T)` protocol. -/
def GReach (s : SysSt) : Prop := Relation.ReflTransGen GStep initSys s

/-! ## Operation-hook pipeline (`base_plugin.py`, `plugined_page_manager.py`)

A chain node's callable is modelled by its observable behaviour when
invoked with no arguments (all chains are invoked argument-less by the
`BasePlugin` dispatch methods): it returns, it raises, or it is not
invocable (`callable(...)` false, node skipped). -/

inductive NodeBeh
  | ok
  | raises
  | notCallable
deriving DecidableEq, Repr

/-- `OperationNode` of `base_plugin.py`: a named callable; the
singly-linked chain is embedded as the list of nodes in append order. -/
structure OpNode where
  name : Nat
  beh : NodeBeh
deriving DecidableEq, Repr

/-- The five hook points of `PluginMethodType`. -/
inductive Phase
  | beforeExec
  | onExec
  | onSuccess
  | onError
  | afterExec
deriving DecidableEq, Repr

/-- A `BasePlugin` instance: registration name plus one operation chain
per hook point (built at construction time, structurally immutable). -/
structure Plugin where
  pname : Nat
  before_exec_chain : List OpNode
  on_exec_chain : List OpNode
  on_success_chain : List OpNode
  on_error_chain : List OpNode
  after_exec_chain : List OpNode
deriving DecidableEq, Repr

/-- The chain a hook point dispatches to (`getattr(self, f"{m}_chain")`). -/
def chainOf (pl : Plugin) : Phase → List OpNode
  | .beforeExec => pl.before_exec_chain
  | .onExec => pl.on_exec_chain
  | .onSuccess => pl.on_success_chain
  | .onError => pl.on_error_chain
  | .afterExec => pl.after_exec_chain

/-- Observable pipeline events.  `phaseCall ph a` is the driver invoking
`__execute_plugins(ph, *args)` with `a` the error payload (`some e` only
for `ON_ERROR`); `nodeRun p n` / `nodeRaise p n` are chain node `n` of
plugin `p` returning / raising; `hookFail p ph` is the driver's
`except Exception` catching-and-logging plugin `p`'s failure at `ph`;
`actionOk` / `actionFail` is the wrapped operation itself. -/
inductive Ev
  | phaseCall (ph : Phase) (errArg : Option Nat)
  | nodeRun (p n : Nat)
  | nodeRaise (p n : Nat)
  | hookFail (p : Nat) (ph : Phase)
  | actionOk (v : Nat)
  | actionFail (e : Nat)
deriving DecidableEq, Repr

/-- `BasePlugin.execute_operation_chain`: walk the chain; a node whose
callable is not invocable is skipped; a node that raises propagates out
of the chain (remaining nodes of this chain do not run).  Returns the
events of plugin `p`'s walk and whether the walk raised. -/
def execute_operation_chain (p : Nat) : List OpNode → List Ev × Bool
  | [] => ([], false)
  | n :: rest =>
    match n.beh with
    | .notCallable => execute_operation_chain p rest
    | .ok =>
      let r := execute_operation_chain p rest
      (.nodeRun p n.name :: r.1, r.2)
    | .raises => ([.nodeRaise p n.name], true)

/-- One plugin's hook-point dispatch as invoked by the driver:
`method = getattr(plugin, method_name); await method(*args)`.
The five dispatch methods defined on `BasePlugin`
(`before_exec` … `on_error`) all take no data parameter and none of the
shipped plugins (`LogPlugin`, `RetryPlugin`, `PageLimitPlugin`) overrides
them, so a call carrying a positional argument — which the driver makes
exactly for `ON_ERROR`, passing the caught exception — raises `TypeError`
at the call itself, before any chain node runs; that `TypeError` is a
hook failure caught by the driver.  An argument-less call runs the
plugin's chain for the phase. -/
def dispatchPhase (pl : Plugin) (ph : Phase) (errArg : Option Nat) : List Ev × Bool :=
  match errArg with
  | some _ => ([], true)
  | none => execute_operation_chain pl.pname (chainOf pl ph)

/-- `PluginizedPageManager.__execute_plugins` (driver helper, lines
39–48): for each plugin in registration order, call its hook-point
method inside `try … except`, logging a failure
(`hookFail`) and continuing with the next plugin. -/
def execute_plugins (ps : List Plugin) (ph : Phase) (errArg : Option Nat) : List Ev :=
  match ps with
  | [] => []
  | pl :: rest =>
    let r := dispatchPhase pl ph errArg
    (r.1 ++ if r.2 then [.hookFail pl.pname ph] else []) ++ execute_plugins rest ph errArg

/-- Outcome of one invocation of the wrapped operation: it returns a
value or raises an error. -/
abbrev ActionRes := Except Nat Nat

/-- `PluginizedPageManager.__execute_with_plugins` (lines 50–73):
`before_exec` hooks; then `try`: `on_exec` hooks, the wrapped operation,
`on_success` hooks, return the result; `except e`: `on_error` hooks with
`e` passed as data, re-`raise`; `finally`: `after_exec` hooks.  Returns
the full event trace and the caller-visible outcome. -/
def execute_with_plugins (ps : List Plugin) (action : ActionRes) : List Ev × ActionRes :=
  let evB := Ev.phaseCall .beforeExec none :: execute_plugins ps .beforeExec none
  let evX := Ev.phaseCall .onExec none :: execute_plugins ps .onExec none
  match action with
  | .ok v =>
    let evS := Ev.phaseCall .onSuccess none :: execute_plugins ps .onSuccess none
    let evA := Ev.phaseCall .afterExec none :: execute_plugins ps .afterExec none
    (evB ++ evX ++ [.actionOk v] ++ evS ++ evA, .ok v)
  | .error e =>
    let evE := Ev.phaseCall .onError (some e) :: execute_plugins ps .onError (some e)
    let evA := Ev.phaseCall .afterExec none :: execute_plugins ps .afterExec none
    (evB ++ evX ++ [.actionFail e] ++ evE ++ evA, .error e)

/-- `RetryPlugin.__init__` (with `retry_times = maxRetry`): registers
`_setup_retry` on `BEFORE_EXEC`, `_handle_retry` on `ON_ERROR` and
`_reset_retry_count` on `ON_SUCCESS`.  The three callables themselves do
not raise when invoked correctly (node behaviour `ok`); node names `10`,
`11`, `12` stand for the three methods. -/
def RetryPluginM : Plugin :=
  { pname := 0
    before_exec_chain := [⟨10, .ok⟩]
    on_exec_chain := []
    on_success_chain := [⟨12, .ok⟩]
    on_error_chain := [⟨11, .ok⟩]
    after_exec_chain := [] }

/-! ## Engine scoped launch (`base_engines.py`, lines 67–102)

`BaseUndetectedPlaywright.launch_browser` is an `@asynccontextmanager`
generator whose body is: fingerprint lookup, then
`async with async_playwright() as playwright:` around
`launch_persistent_context`, `yield browser`, `await browser.close()`.
Python semantics of that shape: on normal exit of the caller's scope the
generator resumes after the `yield` and runs `browser.close()`; an
exception (or `CancelledError`) in the caller's scope is thrown into the
generator *at* the `yield`, and since the `yield` is not wrapped in
`try/finally`, `browser.close()` is skipped — the exception unwinds
through the `async with async_playwright()` block, whose `__aexit__`
(stopping the playwright driver) runs on every path. -/

/-- How the caller's scope around the yielded context exits. -/
inductive ExitKind
  | normal
  | raised
  | cancelled
deriving DecidableEq, Repr

/-- Teardown-relevant events of one `launch_browser` use. -/
inductive LEv
  | fingerprintLookup
  | launchCtx
  | yieldCtx
  | browserClose
  | playwrightStop
deriving DecidableEq, Repr

/-- The event trace of one complete use of
`async with engine.launch_browser() as ctx:` whose body exits as `k`. -/
def launch_browser_trace (k : ExitKind) : List LEv :=
  match k with
  | .normal => [.fingerprintLookup, .launchCtx, .yieldCtx, .browserClose, .playwrightStop]
  | .raised => [.fingerprintLookup, .launchCtx, .yieldCtx, .playwrightStop]
  | .cancelled => [.fingerprintLookup, .launchCtx, .yieldCtx, .playwrightStop]

/-! ## PageLimitPlugin (`page_limit_plugin.py`)

A page in `self.session.pages` (oldest first, Playwright removes a page
from the list when its close succeeds).  `closed` models
`page.is_closed()`; `closeOk` models whether `await page.close()`
succeeds (`false` = it raises). -/

structure PageM where
  pid : Nat
  closed : Bool
  closeOk : Bool
deriving DecidableEq, Repr

/-- `PageLimitPlugin._close_oldest_page` (lines 34–60): if there is a
first page and it is not already closed, try to close it (success removes
it from the context's list); if that close raises and a second page
exists and is not closed, try to close that one instead; every failure
is logged and swallowed. -/
def close_oldest_page (pages : List PageM) : List PageM :=
  match pages with
  | [] => pages
  | oldest :: rest =>
    if oldest.closed then pages
    else if oldest.closeOk then rest
    else
      match rest with
      | [] => pages
      | next :: rest2 =>
        if next.closed then pages
        else if next.closeOk then oldest :: rest2
        else pages

/-- `PageLimitPlugin._check_page_limit` (lines 20–32, registered on
`BEFORE_EXEC`): recount `len(self.session.pages)`; when the count meets
or exceeds `max_pages`, run `_close_oldest_page`. -/
def check_page_limit (max_pages : Nat) (pages : List PageM) : List PageM :=
  if max_pages ≤ pages.length then close_oldest_page pages else pages

/-! ## Page wrapping (`plugined_page_manager.py`, lines 91–112)

State of one `PluginizedPageManager` after `reg_plugins`:
`pluginsPresent` is whether `self.plugin_instances` is non-empty,
`enhanced` is `self._enhanced_pages` (the set of `id(page)` values
already instrumented), and `wraps pid` counts how many wrapper layers
have been installed around page `pid`'s catalogued methods — each layer
makes one logical action run the hook pipeline once more. -/

structure MgrSt where
  pluginsPresent : Bool
  enhanced : List Nat
  wraps : Nat → Nat

/-- Manager state right after `reg_plugins` with a non-empty plugin
list: no page instrumented yet. -/
def initMgr : MgrSt :=
  { pluginsPresent := true, enhanced := [], wraps := fun _ => 0 }

/-- `PluginizedPageManager.__inject_plugins_to_page`: a no-op when there
are no plugin instances or `id(page)` is already in `_enhanced_pages`;
otherwise replace each catalogued method with a pipeline-routing wrapper
(one more wrap layer) and record the page's identity. -/
def inject_plugins_to_page (st : MgrSt) (pid : Nat) : MgrSt :=
  if !st.pluginsPresent || decide (pid ∈ st.enhanced) then st
  else
    { st with enhanced := pid :: st.enhanced
              wraps := fun q => if q = pid then st.wraps q + 1 else st.wraps q }

/-- Wrap-count invariant of a Page Manager: a page never carries more
than one wrapper layer, and an uninstrumented page carries none. -/
def MgrInv (st : MgrSt) : Prop :=
  ∀ q, st.wraps q ≤ 1 ∧ (q ∉ st.enhanced → st.wraps q = 0)

/-- Driver-level pipeline events: the phase invocations made by
`__execute_with_plugins` itself plus the wrapped operation — everything
that is not inside a plugin hook. -/
def isDriverEv : Ev → Bool
  | .phaseCall _ _ => true
  | .actionOk _ => true
  | .actionFail _ => true
  | _ => false

/-- Task `i` is inside a region that owns the pool lock: the first check
block, the double-check block, or the launch await (the lock is held
across it). -/
def holdsLock (s : SysSt) (i : Nat) : Prop :=
  (s.tasks i).pc = .check1 ∨ (s.tasks i).pc = .check2 ∨ (s.tasks i).pc = .launching

/-- Inductive invariant of the concurrent `get_session(T)` protocol:
lock ownership matches the program counters; the global launch count is
0 before any creation and 1 from the first `miss2` on, with the session
entry absent exactly while the single launch is in flight; and every
finished task returned the session currently stored for T. -/
structure GInv (s : SysSt) : Prop where
  lockOwn : ∀ i, holdsLock s i → s.lock = some i
  launchSt :
    (s.launches = 0 ∧ s.session = none ∧ ∀ i, (s.tasks i).pc ≠ .launching) ∨
    (s.launches = 1 ∧ s.session = none ∧ ∃ i, (s.tasks i).pc = .launching) ∨
    (s.launches = 1 ∧ (∃ v, s.session = some v) ∧ ∀ i, (s.tasks i).pc ≠ .launching)
  doneRes : ∀ i, (s.tasks i).pc = .done → (s.tasks i).res = s.session ∧ s.session ≠ none

/-- Final state of the concrete two-task `get_session(T)` run used to
exercise the concurrency theorem: task 0 creates the session (one
launch), task 1 then finds it on its first check. -/
def c1Final : SysSt :=
  { session := some 0
    lock := none
    launches := 1
    tasks :=
      updT (updT (updT (updT (updT (updT (updT (fun _ => ⟨.start, none⟩)
        0 ⟨.check1, none⟩) 0 ⟨.acq2, none⟩) 0 ⟨.check2, none⟩)
        0 ⟨.launching, none⟩) 0 ⟨.done, some 0⟩)
        1 ⟨.check1, none⟩) 1 ⟨.done, some 0⟩ }

/-! ## Session-map lemmas -/

theorem lookupTok_removeTok_self (m : SessionMap) (t : Nat) :
    lookupTok (removeTok m t) t = none := by
  induction m with
  | nil => rfl
  | cons e rest ih =>
    by_cases h : e.1 = t
    · simpa [removeTok, h] using ih
    · simpa [removeTok, lookupTok, h] using ih

theorem lookupTok_removeTok_ne {u t : Nat} (h : u ≠ t) (m : SessionMap) :
    lookupTok (removeTok m u) t = lookupTok m t := by
  induction m with
  | nil => rfl
  | cons e rest ih =>
    by_cases he : e.1 = u
    · have : e.1 ≠ t := by
        rw [he]; exact h
      simp [removeTok, lookupTok, he, this, ih, h]
    · simp only [removeTok, lookupTok, if_neg he]
      by_cases ht : e.1 = t
      · simp [lookupTok, ht]
      · simp [lookupTok, ht, ih]

theorem lookupTok_some_mem {m : SessionMap} {t : Nat} {info : SessionInfo}
    (h : lookupTok m t = some info) : (t, info) ∈ m := by
  induction m with
  | nil => simp [lookupTok] at h
  | cons e rest ih =>
    by_cases he : e.1 = t
    · simp only [lookupTok, if_pos he] at h
      obtain ⟨e1, e2⟩ := e
      simp only at he h
      subst he
      injection h with h2
      subst h2
      exact List.mem_cons_self _ _
    · simp only [lookupTok, if_neg he] at h
      exact List.mem_cons_of_mem _ (ih h)

/-- `close_session` on another token does not change what `t` maps to,
and never invalidates an already-recorded teardown. -/
theorem close_session_lookup_ne {u t : Nat} (h : u ≠ t) (st : PoolSt) :
    lookupTok (close_session st u).sessions t = lookupTok st.sessions t := by
  unfold close_session
  cases hl : lookupTok st.sessions u with
  | none => rfl
  | some info => simpa using lookupTok_removeTok_ne h st.sessions

theorem close_session_closed_mono {u c : Nat} {st : PoolSt}
    (h : c ∈ st.closedToks) : c ∈ (close_session st u).closedToks := by
  unfold close_session
  cases hl : lookupTok st.sessions u with
  | none => exact h
  | some info => simpa using Or.inl h

theorem close_session_lookup_none {u t : Nat} {st : PoolSt}
    (h : lookupTok st.sessions t = none) :
    lookupTok (close_session st u).sessions t = none := by
  by_cases he : u = t
  · subst he
    unfold close_session
    cases hl : lookupTok st.sessions u with
    | none => exact h
    | some info => simpa using lookupTok_removeTok_self st.sessions u
  · rw [close_session_lookup_ne he]
    exact h

theorem foldl_close_lookup_not_mem {t : Nat} (l : List Nat) (h : t ∉ l) (st : PoolSt) :
    lookupTok (l.foldl close_session st).sessions t = lookupTok st.sessions t := by
  induction l generalizing st with
  | nil => rfl
  | cons u rest ih =>
    have hu : u ≠ t := fun he => h (he ▸ List.mem_cons_self u rest)
    have ht : t ∉ rest := fun hm => h (List.mem_cons_of_mem _ hm)
    rw [List.foldl_cons, ih ht, close_session_lookup_ne hu]

theorem foldl_close_lookup_none {t : Nat} (l : List Nat) {st : PoolSt}
    (h : lookupTok st.sessions t = none) :
    lookupTok (l.foldl close_session st).sessions t = none := by
  induction l generalizing st with
  | nil => exact h
  | cons u rest ih => exact ih (close_session_lookup_none h)

theorem foldl_close_closed_mono {c : Nat} (l : List Nat) {st : PoolSt}
    (h : c ∈ st.closedToks) : c ∈ (l.foldl close_session st).closedToks := by
  induction l generalizing st with
  | nil => exact h
  | cons u rest ih => exact ih (close_session_closed_mono h)

theorem mem_key_unique {m : SessionMap} (hnd : (m.map Prod.fst).Nodup)
    {t : Nat} {a b : SessionInfo} (ha : (t, a) ∈ m) (hb : (t, b) ∈ m) : a = b := by
  induction m with
  | nil => simp at ha
  | cons e rest ih =>
    rw [List.map_cons, List.nodup_cons] at hnd
    rcases List.mem_cons.mp ha with ha1 | ha2
    · rcases List.mem_cons.mp hb with hb1 | hb2
      · rw [← ha1] at hb1
        injection hb1 with _ h2
        exact h2.symm
      · exfalso
        apply hnd.1
        rw [← ha1]
        exact List.mem_map.mpr ⟨(t, b), hb2, rfl⟩
    · rcases List.mem_cons.mp hb with hb1 | hb2
      · exfalso
        apply hnd.1
        rw [← hb1]
        exact List.mem_map.mpr ⟨(t, a), ha2, rfl⟩
      · exact ih hnd.2 ha2 hb2

/-! ## C8: explicit release wins over the remote-control exemption -/

/-- C8: `release_session(T)` — the external call, made without the pool
lock held — always removes T's entry from `_active_sessions` and invokes
its stored `context_manager.__aexit__`, for every stored `SessionInfo`,
including one whose remote-control flag is true: `_close_session` never
consults the flag. -/
theorem c8_release_always_removes (st : PoolSt) (t : Nat) (info : SessionInfo)
    (h : lookupTok st.sessions t = some info) :
    release_session false st t =
      .ok { sessions := removeTok st.sessions t, closedToks := st.closedToks ++ [t] } ∧
    lookupTok (removeTok st.sessions t) t = none ∧
    t ∈ st.closedToks ++ [t] := by
  refine ⟨?_, lookupTok_removeTok_self _ _, by simp⟩
  simp [release_session, close_session, h]

/-- Witness for C8 at a concrete pool holding one session whose
remote-control flag is set. -/
theorem c8_release_always_removes_witness :
    lookupTok [(5, ⟨100, true, 3⟩)] 5 = some ⟨100, true, 3⟩ ∧
    release_session false ⟨[(5, ⟨100, true, 3⟩)], []⟩ 5 =
      .ok { sessions := removeTok [(5, ⟨100, true, 3⟩)] 5, closedToks := [] ++ [5] } :=
  ⟨by decide,
   (c8_release_always_removes ⟨[(5, ⟨100, true, 3⟩)], []⟩ 5 ⟨100, true, 3⟩ (by decide)).1⟩

/-! ## C4: `cleanup_all_sessions` self-deadlocks on a non-empty pool -/

/-- C4 (code-bug evidence): `cleanup_all_sessions` takes the pool lock and
then calls `release_session` for each active token while still holding it;
`asyncio.Lock` is not reentrant, so with one active session the first
inner `release_session` blocks forever — the call never returns and the
session map is never emptied.  Only on an already-empty pool does the call
return. -/
theorem c4_cleanup_all_deadlocks :
    cleanup_all_sessions ⟨[(0, ⟨0, false, 0⟩)], []⟩ = .error .deadlock ∧
    cleanup_all_sessions ⟨[], []⟩ = .ok ⟨[], []⟩ := by
  constructor <;> rfl

/-! ## C5: the idle sweep's eviction rule -/

/-- C5: one pass of `_cleanup_inactive_sessions`, run at time `now` on a
pool with dict-shaped (duplicate-free) keys, never evicts a session whose
remote-control flag is set, regardless of idle time; and it evicts —
removing the entry and invoking its teardown — every session whose flag
is clear and whose idle time strictly exceeds the 30-minute threshold,
the candidates being selected under the pool lock. -/
theorem c5_idle_sweep (now : Int) (st : PoolSt) (t : Nat) (info : SessionInfo)
    (hnd : (st.sessions.map Prod.fst).Nodup)
    (h : lookupTok st.sessions t = some info) :
    (info.remote = true →
       lookupTok (cleanup_inactive_sessions now st).sessions t = some info) ∧
    (info.remote = false → 30 * 60 < now - info.last_used →
       lookupTok (cleanup_inactive_sessions now st).sessions t = none ∧
       t ∈ (cleanup_inactive_sessions now st).closedToks) := by
  have hmem : (t, info) ∈ st.sessions := lookupTok_some_mem h
  constructor
  · intro hr
    have hni : t ∉ (st.sessions.filter
        (fun e => decide (30 * 60 < now - e.2.last_used) && !e.2.remote)).map Prod.fst := by
      intro hin
      obtain ⟨e, hef, he1⟩ := List.mem_map.mp hin
      have hes : e ∈ st.sessions := List.mem_filter.mp hef |>.1
      have hep : (decide (30 * 60 < now - e.2.last_used) && !e.2.remote) = true :=
        List.mem_filter.mp hef |>.2
      obtain ⟨e1, e2⟩ := e
      simp only at he1
      subst he1
      have : e2 = info := mem_key_unique hnd hes hmem
      subst this
      rw [hr] at hep
      simp at hep
    have := foldl_close_lookup_not_mem _ hni st
    simp only [cleanup_inactive_sessions]
    rw [this, h]
  · intro hr hidle
    have hfm : (t, info) ∈ st.sessions.filter
        (fun e => decide (30 * 60 < now - e.2.last_used) && !e.2.remote) := by
      refine List.mem_filter.mpr ⟨hmem, ?_⟩
      simpa [hr] using hidle
    have hin : t ∈ (st.sessions.filter
        (fun e => decide (30 * 60 < now - e.2.last_used) && !e.2.remote)).map Prod.fst :=
      List.mem_map.mpr ⟨(t, info), hfm, rfl⟩
    have hndi : ((st.sessions.filter
        (fun e => decide (30 * 60 < now - e.2.last_used) && !e.2.remote)).map Prod.fst).Nodup :=
      hnd.sublist ((List.filter_sublist _).map Prod.fst)
    obtain ⟨l₁, l₂, hsplit⟩ := List.append_of_mem hin
    rw [hsplit] at hndi
    have hdis := (List.nodup_append.mp hndi).2.2
    have ht1 : t ∉ l₁ := fun hm => hdis hm (List.mem_cons_self t l₂)
    have hst₁ : lookupTok (l₁.foldl close_session st).sessions t = some info := by
      rw [foldl_close_lookup_not_mem _ ht1 st]
      exact h
    have hclose : close_session (l₁.foldl close_session st) t =
        { sessions := removeTok (l₁.foldl close_session st).sessions t
          closedToks := (l₁.foldl close_session st).closedToks ++ [t] } := by
      simp [close_session, hst₁]
    simp only [cleanup_inactive_sessions]
    rw [hsplit, List.foldl_append, List.foldl_cons, hclose]
    constructor
    · exact foldl_close_lookup_none l₂ (lookupTok_removeTok_self _ t)
    · exact foldl_close_closed_mono l₂ (by simp)

/-- Witness for C5: at `now = 10000`, token 1 (idle since 100, remote
control on) survives the sweep; token 2 (idle since 100, remote control
off) is evicted and torn down. -/
theorem c5_idle_sweep_witness :
    lookupTok (cleanup_inactive_sessions 10000
        ⟨[(1, ⟨100, true, 7⟩), (2, ⟨100, false, 8⟩)], []⟩).sessions 1 = some ⟨100, true, 7⟩ ∧
    lookupTok (cleanup_inactive_sessions 10000
        ⟨[(1, ⟨100, true, 7⟩), (2, ⟨100, false, 8⟩)], []⟩).sessions 2 = none ∧
    2 ∈ (cleanup_inactive_sessions 10000
        ⟨[(1, ⟨100, true, 7⟩), (2, ⟨100, false, 8⟩)], []⟩).closedToks :=
  have h1 := c5_idle_sweep 10000 ⟨[(1, ⟨100, true, 7⟩), (2, ⟨100, false, 8⟩)], []⟩
    1 ⟨100, true, 7⟩ (by decide) (by decide)
  have h2 := c5_idle_sweep 10000 ⟨[(1, ⟨100, true, 7⟩), (2, ⟨100, false, 8⟩)], []⟩
    2 ⟨100, false, 8⟩ (by decide) (by decide)
  ⟨h1.1 rfl, (h2.2 rfl (by decide)).1, (h2.2 rfl (by decide)).2⟩

/-! ## Pipeline lemmas -/

theorem eoc_no_driver (p : Nat) (l : List OpNode) :
    ((execute_operation_chain p l).1).filter isDriverEv = [] := by
  induction l with
  | nil => rfl
  | cons n rest ih =>
    cases hb : n.beh with
    | notCallable => simpa [execute_operation_chain, hb] using ih
    | ok => simpa [execute_operation_chain, hb, isDriverEv] using ih
    | raises => simp [execute_operation_chain, hb, isDriverEv]

theorem ep_no_driver (ps : List Plugin) (ph : Phase) (a : Option Nat) :
    (execute_plugins ps ph a).filter isDriverEv = [] := by
  induction ps with
  | nil => rfl
  | cons pl rest ih =>
    cases a with
    | some e => simpa [execute_plugins, dispatchPhase, isDriverEv] using ih
    | none =>
      simp only [execute_plugins, dispatchPhase, List.filter_append, ih,
        List.append_nil, eoc_no_driver]
      by_cases hb : (execute_operation_chain pl.pname (chainOf pl ph)).2 = true <;>
        simp [hb, isDriverEv]

/-- The caller-visible outcome of a wrapped action is exactly the
action's own outcome, whatever the plugins and their hooks do. -/
theorem ewp_result (ps : List Plugin) (a : ActionRes) :
    (execute_with_plugins ps a).2 = a := by
  cases a <;> simp [execute_with_plugins]

theorem ewp_driver_trace_ok (ps : List Plugin) (v : Nat) :
    (execute_with_plugins ps (.ok v)).1.filter isDriverEv =
      [.phaseCall .beforeExec none, .phaseCall .onExec none, .actionOk v,
       .phaseCall .onSuccess none, .phaseCall .afterExec none] := by
  simp [execute_with_plugins, List.filter_append, ep_no_driver, isDriverEv]

theorem ewp_driver_trace_error (ps : List Plugin) (e : Nat) :
    (execute_with_plugins ps (.error e)).1.filter isDriverEv =
      [.phaseCall .beforeExec none, .phaseCall .onExec none, .actionFail e,
       .phaseCall .onError (some e), .phaseCall .afterExec none] := by
  simp [execute_with_plugins, List.filter_append, ep_no_driver, isDriverEv]

theorem ep_append (ps1 ps2 : List Plugin) (ph : Phase) (a : Option Nat) :
    execute_plugins (ps1 ++ ps2) ph a =
      execute_plugins ps1 ph a ++ execute_plugins ps2 ph a := by
  induction ps1 with
  | nil => rfl
  | cons pl rest ih => simp [execute_plugins, ih]

/-! ## C2: the five-phase order around every wrapped action -/

/-- C2: for every plugin list, a wrapped action drives the hook phases in
exactly the order `before_exec`, `on_exec`, the wrapped operation, then
`on_success` (operation returned) or `on_error` with the raised error
passed as the data argument (operation raised), and `after_exec` always
last; the caller receives the action's value on success and, on failure,
the original error is re-raised unchanged, the `on_error` and
`after_exec` phases having been driven before control returns. -/
theorem c2_phase_order (ps : List Plugin) (v e : Nat) :
    ((execute_with_plugins ps (.ok v)).1.filter isDriverEv =
       [.phaseCall .beforeExec none, .phaseCall .onExec none, .actionOk v,
        .phaseCall .onSuccess none, .phaseCall .afterExec none] ∧
     (execute_with_plugins ps (.ok v)).2 = .ok v) ∧
    ((execute_with_plugins ps (.error e)).1.filter isDriverEv =
       [.phaseCall .beforeExec none, .phaseCall .onExec none, .actionFail e,
        .phaseCall .onError (some e), .phaseCall .afterExec none] ∧
     (execute_with_plugins ps (.error e)).2 = .error e) :=
  ⟨⟨ewp_driver_trace_ok ps v, ewp_result ps (.ok v)⟩,
   ⟨ewp_driver_trace_error ps e, ewp_result ps (.error e)⟩⟩

/-! ## C6: hook failures are contained -/

/-- C6: a hook that raises is caught and logged by the driver
(`hookFail` event) and never surfaces: plugins after the failing one
still run their hooks unchanged (the events of `ps2` are exactly what
they would be on their own), all five driver phases still happen (the
driver-level trace does not depend on the plugins at all), and the caller
still receives the action's own result on success or its original error
on failure. -/
theorem c6_hook_failure_contained (ps1 ps2 : List Plugin) (pl : Plugin)
    (ph : Phase) (a : Option Nat) (action : ActionRes)
    (hf : (dispatchPhase pl ph a).2 = true) :
    Ev.hookFail pl.pname ph ∈ execute_plugins (ps1 ++ pl :: ps2) ph a ∧
    execute_plugins (ps1 ++ pl :: ps2) ph a =
      execute_plugins ps1 ph a ++
        ((dispatchPhase pl ph a).1 ++ [.hookFail pl.pname ph]) ++
        execute_plugins ps2 ph a ∧
    (execute_with_plugins (ps1 ++ pl :: ps2) action).2 = action ∧
    (execute_with_plugins (ps1 ++ pl :: ps2) action).1.filter isDriverEv =
      (execute_with_plugins ps2 action).1.filter isDriverEv := by
  have hsplit : execute_plugins (ps1 ++ pl :: ps2) ph a =
      execute_plugins ps1 ph a ++
        ((dispatchPhase pl ph a).1 ++ [.hookFail pl.pname ph]) ++
        execute_plugins ps2 ph a := by
    rw [ep_append]
    simp [execute_plugins, hf]
  refine ⟨?_, hsplit, ewp_result _ _, ?_⟩
  · rw [hsplit]
    simp
  · cases action with
    | ok v => rw [ewp_driver_trace_ok, ewp_driver_trace_ok]
    | error e => rw [ewp_driver_trace_error, ewp_driver_trace_error]

/-- Witness for C6: one plugin whose `before_exec` chain node raises,
between a log-like plugin and another, around a succeeding action. -/
theorem c6_hook_failure_contained_witness :
    (dispatchPhase ⟨1, [⟨5, .raises⟩], [], [], [], []⟩ .beforeExec none).2 = true ∧
    Ev.hookFail 1 .beforeExec ∈
      execute_plugins ([⟨9, [⟨3, .ok⟩], [], [], [], []⟩] ++
        ⟨1, [⟨5, .raises⟩], [], [], [], []⟩ :: [⟨2, [⟨4, .ok⟩], [], [], [], []⟩])
        .beforeExec none ∧
    (execute_with_plugins ([⟨9, [⟨3, .ok⟩], [], [], [], []⟩] ++
        ⟨1, [⟨5, .raises⟩], [], [], [], []⟩ :: [⟨2, [⟨4, .ok⟩], [], [], [], []⟩])
        (.ok 42)).2 = .ok 42 :=
  have h := c6_hook_failure_contained [⟨9, [⟨3, .ok⟩], [], [], [], []⟩]
    [⟨2, [⟨4, .ok⟩], [], [], [], []⟩] ⟨1, [⟨5, .raises⟩], [], [], [], []⟩
    .beforeExec none (.ok 42) (by decide)
  ⟨by decide, h.1, h.2.2.1⟩

/-! ## C3: the RetryPlugin never delivers a retry's success result -/

/-- C3 (code-bug evidence): with the `RetryPlugin` registered and a
wrapped action that raises (error `7`), (i) the caller receives the
original error `7` — `__execute_plugins` discards hook return values and
`__execute_with_plugins` unconditionally re-raises, so no retry result
could ever reach the caller; (ii) the driver's `on_error(e)` call on the
plugin raises `TypeError` (`BasePlugin.on_error` takes no data argument),
which is caught and logged as a hook failure; and (iii) the
`_handle_retry` chain node (node `11`) therefore never runs at all. -/
theorem c3_retry_never_returns_result :
    (execute_with_plugins [RetryPluginM] (.error 7)).2 = .error 7 ∧
    Ev.hookFail 0 .onError ∈ (execute_with_plugins [RetryPluginM] (.error 7)).1 ∧
    Ev.nodeRun 0 11 ∉ (execute_with_plugins [RetryPluginM] (.error 7)).1 :=
  ⟨rfl, by decide, by decide⟩

/-! ## C7: teardown paths of the scoped launch -/

/-- C7 counterexample: when the caller's scope raises while holding the
yielded context, `browser.close()` is not executed — the `yield` in
`launch_browser` is not protected by `try/finally`. -/
theorem c7_counterexample :
    launch_browser_trace ExitKind.raised =
      [.fingerprintLookup, .launchCtx, .yieldCtx, .playwrightStop] ∧
    decide (LEv.browserClose ∈ launch_browser_trace ExitKind.raised) = false := by
  decide

/-- C7 amended: the teardown that runs on every exit path of
`launch_browser`'s scope is the enclosing `async with async_playwright()`
exit (stopping the driver); the explicit `browser.close()` of the context
runs on the normal-return path only. -/
theorem c7_teardown_paths :
    ∀ k, LEv.playwrightStop ∈ launch_browser_trace k ∧
      (LEv.browserClose ∈ launch_browser_trace k ↔ k = ExitKind.normal) := by
  intro k
  cases k <;> decide

/-! ## C9: the PageLimit plugin's before-exec eviction -/

/-- C9 counterexample: with `max_pages = 2` and two open pages whose
`close()` both raise, `_check_page_limit` closes no page at all — the
claim's "exactly one existing page is closed" fails, and the action's new
page then makes three. -/
theorem c9_counterexample :
    check_page_limit 2 [⟨0, false, false⟩, ⟨1, false, false⟩] =
      [⟨0, false, false⟩, ⟨1, false, false⟩] ∧
    decide ((check_page_limit 2 [⟨0, false, false⟩, ⟨1, false, false⟩]).length = 1) = false := by
  decide

/-- C9 amended: when the open-page count meets or exceeds `max_pages` and
the oldest page is open, the plugin closes exactly the oldest page if its
`close()` succeeds, and exactly the next-oldest if the oldest's `close()`
raises and the next-oldest's succeeds; in either case, when the count was
exactly `max_pages`, the page the action then opens keeps the count at
most `max_pages`.  (If every close attempt fails, no page is closed.) -/
theorem c9_page_limit (a b : PageM) (rest : List PageM) (max_pages : Nat)
    (ha : a.closed = false) (hlen : max_pages ≤ (a :: b :: rest).length) :
    (a.closeOk = true → check_page_limit max_pages (a :: b :: rest) = b :: rest) ∧
    (a.closeOk = false → b.closed = false → b.closeOk = true →
      check_page_limit max_pages (a :: b :: rest) = a :: rest) ∧
    ((a :: b :: rest).length = max_pages →
      (b :: rest).length + 1 ≤ max_pages ∧ (a :: rest).length + 1 ≤ max_pages) := by
  refine ⟨?_, ?_, ?_⟩
  · intro hok
    unfold check_page_limit
    rw [if_pos hlen]
    simp [close_oldest_page, ha, hok]
  · intro hnok hb hbok
    unfold check_page_limit
    rw [if_pos hlen]
    simp [close_oldest_page, ha, hnok, hb, hbok]
  · intro heq
    simp only [List.length_cons] at heq ⊢
    omega

/-- Witness for C9: `max = 2`, two open closable pages — the oldest is
closed, one page remains, and the action's new page keeps the count at 2. -/
theorem c9_page_limit_witness :
    check_page_limit 2 [⟨0, false, true⟩, ⟨1, false, true⟩] = [⟨1, false, true⟩] ∧
    ([(⟨1, false, true⟩ : PageM)].length + 1 ≤ 2) :=
  have h := c9_page_limit ⟨0, false, true⟩ ⟨1, false, true⟩ [] 2 rfl (by decide)
  ⟨h.1 rfl, (h.2.2 rfl).1⟩

/-! ## C10: page wrapping is idempotent -/

theorem inject_noop {st : MgrSt} {pid : Nat}
    (h : (!st.pluginsPresent || decide (pid ∈ st.enhanced)) = true) :
    inject_plugins_to_page st pid = st := by
  simp only [inject_plugins_to_page, if_pos h]

theorem inject_inv {st : MgrSt} (pid : Nat) (h : MgrInv st) :
    MgrInv (inject_plugins_to_page st pid) := by
  by_cases hc : (!st.pluginsPresent || decide (pid ∈ st.enhanced)) = true
  · rw [inject_noop hc]
    exact h
  · have hmem : pid ∉ st.enhanced := by
      intro hm
      exact hc (by simp [hm])
    intro q
    simp only [inject_plugins_to_page, if_neg hc]
    constructor
    · by_cases hq : q = pid
      · subst hq
        simp [(h q).2 hmem]
      · simpa [hq] using (h q).1
    · intro hq
      have hq1 : q ≠ pid := fun he => hq (he ▸ List.mem_cons_self pid st.enhanced)
      have hq2 : q ∉ st.enhanced := fun hm => hq (List.mem_cons_of_mem _ hm)
      simpa [hq1] using (h q).2 hq2

theorem foldl_inject_inv (seq : List Nat) {st : MgrSt} (h : MgrInv st) :
    MgrInv (seq.foldl inject_plugins_to_page st) := by
  induction seq generalizing st with
  | nil => exact h
  | cons p rest ih => exact ih (inject_inv p h)

theorem initMgr_inv : MgrInv initMgr :=
  fun _ => ⟨Nat.zero_le 1, fun _ => rfl⟩

/-- C10: `__inject_plugins_to_page` is idempotent — re-wrapping a page the
manager already instrumented (tracked by `id(page)` in
`_enhanced_pages`) is a no-op — and consequently, starting from a fresh
manager, any sequence of wrap requests leaves at most one wrapper layer
on every page, so one logical action runs each hook exactly once, never
twice. -/
theorem c10_wrap_idempotent :
    (∀ (st : MgrSt) (pid : Nat),
       inject_plugins_to_page (inject_plugins_to_page st pid) pid =
         inject_plugins_to_page st pid) ∧
    (∀ (seq : List Nat) (pid : Nat),
       (seq.foldl inject_plugins_to_page initMgr).wraps pid ≤ 1) := by
  constructor
  · intro st pid
    by_cases hc : (!st.pluginsPresent || decide (pid ∈ st.enhanced)) = true
    · rw [inject_noop hc, inject_noop hc]
    · have h1 : inject_plugins_to_page st pid =
          { st with enhanced := pid :: st.enhanced
                    wraps := fun q => if q = pid then st.wraps q + 1 else st.wraps q } := by
        simp only [inject_plugins_to_page, if_neg hc]
      rw [h1]
      apply inject_noop
      have hp : st.pluginsPresent = true := by
        cases hpp : st.pluginsPresent
        · exact absurd (by simp [hpp]) hc
        · rfl
      simp [hp]
  · intro seq pid
    exact (foldl_inject_inv seq initMgr_inv pid).1

/-! ## C1: one launch and one session under concurrent `get_session` -/

theorem updT_self (f : Nat → TaskSt) (i : Nat) (v : TaskSt) : updT f i v i = v := by
  simp [updT]

theorem updT_ne {i j : Nat} (h : j ≠ i) (f : Nat → TaskSt) (v : TaskSt) :
    updT f i v j = f j := by
  simp [updT, h]

theorem no_holder {s : SysSt} (h : GInv s) (hl : s.lock = none) (j : Nat) :
    ¬ holdsLock s j := fun hj => by
  have h2 := h.lockOwn j hj
  rw [hl] at h2
  exact Option.noConfusion h2

theorem only_holder {s : SysSt} (h : GInv s) {i : Nat} (hl : s.lock = some i)
    (j : Nat) (hj : holdsLock s j) : j = i := by
  have h2 := h.lockOwn j hj
  rw [hl] at h2
  exact (Option.some.inj h2).symm

theorem ginv_init : GInv initSys where
  lockOwn := fun i hi => by
    rcases hi with h | h | h <;> simp [initSys] at h
  launchSt := Or.inl ⟨rfl, rfl, fun i => by simp [initSys]⟩
  doneRes := fun i hi => by simp [initSys] at hi

theorem ginv_step {s s' : SysSt} (h : GInv s) (hs : GStep s s') : GInv s' := by
  cases hs with
  | acquire1 i s hpc hlock =>
    refine ⟨?_, ?_, ?_⟩
    · intro j hj
      by_cases hji : j = i
      · subst hji; rfl
      · exact absurd (by simpa [holdsLock, updT_ne hji] using hj) (no_holder h hlock j)
    · rcases h.launchSt with ⟨h1, h2, h3⟩ | ⟨h1, h2, h3⟩ | ⟨h1, h2, h3⟩
      · refine Or.inl ⟨h1, h2, fun j => ?_⟩
        by_cases hji : j = i
        · subst hji; simp [updT_self]
        · simpa [updT_ne hji] using h3 j
      · obtain ⟨k, hk⟩ := h3
        have hki : k ≠ i := fun he => by rw [he, hpc] at hk; simp at hk
        exact Or.inr (Or.inl ⟨h1, h2, ⟨k, by simpa [updT_ne hki] using hk⟩⟩)
      · refine Or.inr (Or.inr ⟨h1, h2, fun j => ?_⟩)
        by_cases hji : j = i
        · subst hji; simp [updT_self]
        · simpa [updT_ne hji] using h3 j
    · intro j hj
      by_cases hji : j = i
      · subst hji; simp [updT_self] at hj
      · have hj' : (s.tasks j).pc = .done := by simpa [updT_ne hji] using hj
        simpa [updT_ne hji] using h.doneRes j hj'
  | hit1 i v s hpc hlock hsess =>
    refine ⟨?_, ?_, ?_⟩
    · intro j hj
      exfalso
      by_cases hji : j = i
      · subst hji; simp [holdsLock, updT_self] at hj
      · exact hji (only_holder h hlock j (by simpa [holdsLock, updT_ne hji] using hj))
    · rcases h.launchSt with ⟨h1, h2, h3⟩ | ⟨h1, h2, h3⟩ | ⟨h1, h2, h3⟩
      · rw [hsess] at h2; exact Option.noConfusion h2
      · rw [hsess] at h2; exact Option.noConfusion h2
      · refine Or.inr (Or.inr ⟨h1, h2, fun j => ?_⟩)
        by_cases hji : j = i
        · subst hji; simp [updT_self]
        · simpa [updT_ne hji] using h3 j
    · intro j hj
      by_cases hji : j = i
      · subst hji
        refine ⟨by simp [updT_self, hsess], by simp [hsess]⟩
      · have hj' : (s.tasks j).pc = .done := by simpa [updT_ne hji] using hj
        simpa [updT_ne hji] using h.doneRes j hj'
  | miss1 i s hpc hlock hsess =>
    refine ⟨?_, ?_, ?_⟩
    · intro j hj
      exfalso
      by_cases hji : j = i
      · subst hji; simp [holdsLock, updT_self] at hj
      · exact hji (only_holder h hlock j (by simpa [holdsLock, updT_ne hji] using hj))
    · rcases h.launchSt with ⟨h1, h2, h3⟩ | ⟨h1, h2, h3⟩ | ⟨h1, h2, h3⟩
      · refine Or.inl ⟨h1, h2, fun j => ?_⟩
        by_cases hji : j = i
        · subst hji; simp [updT_self]
        · simpa [updT_ne hji] using h3 j
      · exfalso
        obtain ⟨k, hk⟩ := h3
        have := only_holder h hlock k (Or.inr (Or.inr hk))
        rw [this, hpc] at hk
        simp at hk
      · obtain ⟨v, hv⟩ := h2
        rw [hsess] at hv
        exact Option.noConfusion hv
    · intro j hj
      by_cases hji : j = i
      · subst hji; simp [updT_self] at hj
      · have hj' : (s.tasks j).pc = .done := by simpa [updT_ne hji] using hj
        simpa [updT_ne hji] using h.doneRes j hj'
  | acquire2 i s hpc hlock =>
    refine ⟨?_, ?_, ?_⟩
    · intro j hj
      by_cases hji : j = i
      · subst hji; rfl
      · exact absurd (by simpa [holdsLock, updT_ne hji] using hj) (no_holder h hlock j)
    · rcases h.launchSt with ⟨h1, h2, h3⟩ | ⟨h1, h2, h3⟩ | ⟨h1, h2, h3⟩
      · refine Or.inl ⟨h1, h2, fun j => ?_⟩
        by_cases hji : j = i
        · subst hji; simp [updT_self]
        · simpa [updT_ne hji] using h3 j
      · obtain ⟨k, hk⟩ := h3
        have hki : k ≠ i := fun he => by rw [he, hpc] at hk; simp at hk
        exact Or.inr (Or.inl ⟨h1, h2, ⟨k, by simpa [updT_ne hki] using hk⟩⟩)
      · refine Or.inr (Or.inr ⟨h1, h2, fun j => ?_⟩)
        by_cases hji : j = i
        · subst hji; simp [updT_self]
        · simpa [updT_ne hji] using h3 j
    · intro j hj
      by_cases hji : j = i
      · subst hji; simp [updT_self] at hj
      · have hj' : (s.tasks j).pc = .done := by simpa [updT_ne hji] using hj
        simpa [updT_ne hji] using h.doneRes j hj'
  | hit2 i v s hpc hlock hsess =>
    refine ⟨?_, ?_, ?_⟩
    · intro j hj
      exfalso
      by_cases hji : j = i
      · subst hji; simp [holdsLock, updT_self] at hj
      · exact hji (only_holder h hlock j (by simpa [holdsLock, updT_ne hji] using hj))
    · rcases h.launchSt with ⟨h1, h2, h3⟩ | ⟨h1, h2, h3⟩ | ⟨h1, h2, h3⟩
      · rw [hsess] at h2; exact Option.noConfusion h2
      · rw [hsess] at h2; exact Option.noConfusion h2
      · refine Or.inr (Or.inr ⟨h1, h2, fun j => ?_⟩)
        by_cases hji : j = i
        · subst hji; simp [updT_self]
        · simpa [updT_ne hji] using h3 j
    · intro j hj
      by_cases hji : j = i
      · subst hji
        refine ⟨by simp [updT_self, hsess], by simp [hsess]⟩
      · have hj' : (s.tasks j).pc = .done := by simpa [updT_ne hji] using hj
        simpa [updT_ne hji] using h.doneRes j hj'
  | miss2 i s hpc hlock hsess =>
    refine ⟨?_, ?_, ?_⟩
    · intro j hj
      by_cases hji : j = i
      · subst hji; exact hlock
      · exact absurd (only_holder h hlock j
          (by simpa [holdsLock, updT_ne hji] using hj)) hji
    · rcases h.launchSt with ⟨h1, h2, h3⟩ | ⟨h1, h2, h3⟩ | ⟨h1, h2, h3⟩
      · refine Or.inr (Or.inl ⟨by simp [h1], h2, ⟨i, by simp [updT_self]⟩⟩)
      · exfalso
        obtain ⟨k, hk⟩ := h3
        have := only_holder h hlock k (Or.inr (Or.inr hk))
        rw [this, hpc] at hk
        simp at hk
      · obtain ⟨v, hv⟩ := h2
        rw [hsess] at hv
        exact Option.noConfusion hv
    · intro j hj
      by_cases hji : j = i
      · subst hji; simp [updT_self] at hj
      · have hj' : (s.tasks j).pc = .done := by simpa [updT_ne hji] using hj
        simpa [updT_ne hji] using h.doneRes j hj'
  | finish i s hpc hlock =>
    have hsess : s.session = none := by
      rcases h.launchSt with ⟨_, h2, h3⟩ | ⟨_, h2, _⟩ | ⟨_, _, h3⟩
      · exact absurd hpc (h3 i)
      · exact h2
      · exact absurd hpc (h3 i)
    refine ⟨?_, ?_, ?_⟩
    · intro j hj
      exfalso
      by_cases hji : j = i
      · subst hji; simp [holdsLock, updT_self] at hj
      · exact hji (only_holder h hlock j (by simpa [holdsLock, updT_ne hji] using hj))
    · rcases h.launchSt with ⟨_, _, h3⟩ | ⟨h1, h2, h3⟩ | ⟨_, _, h3⟩
      · exact absurd hpc (h3 i)
      · refine Or.inr (Or.inr ⟨h1, ⟨i, rfl⟩, fun j => ?_⟩)
        by_cases hji : j = i
        · subst hji; simp [updT_self]
        · intro hl2
          have hj' : holdsLock s j :=
            Or.inr (Or.inr (by simpa [updT_ne hji] using hl2))
          exact hji (only_holder h hlock j hj')
      · exact absurd hpc (h3 i)
    · intro j hj
      by_cases hji : j = i
      · subst hji
        exact ⟨by simp [updT_self], by simp⟩
      · exfalso
        have hj' : (s.tasks j).pc = .done := by simpa [updT_ne hji] using hj
        exact (h.doneRes j hj').2 hsess

/-- C1: in every reachable interleaving of any number of concurrent
`get_session(T)` calls for an initially absent token T, at most one
`launch_browser` is ever invoked (creation is double-checked under the
pool-wide lock, which is held across the launch await), and every call
that has returned got the same stored `(engine, context)` pair — the one
in `_active_sessions[T]`. -/
theorem c1_single_session (s : SysSt) (hr : GReach s) :
    s.launches ≤ 1 ∧
    ∀ i j, (s.tasks i).pc = .done → (s.tasks j).pc = .done →
      (s.tasks i).res = (s.tasks j).res ∧ (s.tasks i).res = s.session := by
  have hinv : GInv s := by
    induction hr with
    | refl => exact ginv_init
    | tail _ hstep ih => exact ginv_step ih hstep
  constructor
  · rcases hinv.launchSt with ⟨h1, _, _⟩ | ⟨h1, _, _⟩ | ⟨h1, _, _⟩ <;> omega
  · intro i j hi hj
    have hdi := hinv.doneRes i hi
    have hdj := hinv.doneRes j hj
    exact ⟨hdi.1.trans hdj.1.symm, hdi.1⟩

/-- Witness for C1: a concrete interleaving in which task 0 creates the
session (misses both checks, launches once) and task 1 then hits the
first check; both finish with the same pair and exactly one launch. -/
theorem c1_single_session_witness :
    c1Final.launches ≤ 1 ∧
    (c1Final.tasks 0).res = (c1Final.tasks 1).res ∧
    (c1Final.tasks 0).res = c1Final.session := by
  have h0 : GReach initSys := Relation.ReflTransGen.refl
  have h1 := Relation.ReflTransGen.tail h0 (GStep.acquire1 0 initSys rfl rfl)
  have h2 := Relation.ReflTransGen.tail h1 (GStep.miss1 0 _ rfl rfl rfl)
  have h3 := Relation.ReflTransGen.tail h2 (GStep.acquire2 0 _ rfl rfl)
  have h4 := Relation.ReflTransGen.tail h3 (GStep.miss2 0 _ rfl rfl rfl)
  have h5 := Relation.ReflTransGen.tail h4 (GStep.finish 0 _ rfl rfl)
  have h6 := Relation.ReflTransGen.tail h5 (GStep.acquire1 1 _ rfl rfl)
  have h7 : GReach c1Final :=
    Relation.ReflTransGen.tail h6 (GStep.hit1 1 0 _ rfl rfl rfl)
  have hm := c1_single_session c1Final h7
  exact ⟨hm.1, (hm.2 0 1 rfl rfl).1, (hm.2 0 1 rfl rfl).2⟩

end BiliRPA
